import Mathlib

/-
  Verification of the metrics-aggregation engine of the OpenRank2025
  dashboards (`useDataProcessor` in src/scripts/GlobalPulse_Analytics_Pro.jsx
  and src/scripts/GlobalizationDashboard.jsx).

  The JavaScript code is embedded shallowly:
  * commits are records of a UTC timestamp (seconds), an ISO-3 country
    string, a contributor id and a name;
  * the single `forEach` aggregation pass is a `List.foldl` per container
    (the four containers are updated independently by the loop body);
  * JavaScript objects keyed by non-numeric strings preserve insertion
    order, so `countryCounts` and `contributorStats` are association lists;
  * `Array.prototype.sort` is stable, so sorting is `List.mergeSort`;
  * JavaScript numbers are idealised as real numbers; `x.toFixed(2)`
    followed by `parseFloat` is rounding to 2 decimal places (`round2`),
    `toFixed(0)` is rounding to an integer (`round0`);
  * `Math.random()` results are passed in explicitly as parameters.
-/

namespace OpenRank

/-- One contribution event, as produced by `generateMockData` and consumed
by `useDataProcessor` (fields `timestamp_unix`, `location_iso3`,
`contributor_id`, `contributor_name`). -/
structure Commit where
  timestamp_unix : ℕ
  location_iso3 : String
  contributor_id : String
  contributor_name : String
deriving DecidableEq, Repr

/-- `new Date(ts * 1000).getUTCHours()` for a non-negative UNIX timestamp. -/
def utcHour (ts : ℕ) : ℕ := ts / 3600 % 24

/-- `new Date(ts * 1000).getUTCDay()` for a non-negative UNIX timestamp:
the UNIX epoch (1970-01-01) was a Thursday, day number 4 (0 = Sunday). -/
def utcDay (ts : ℕ) : ℕ := (ts / 86400 + 4) % 7

/-- `arr[i]++` on a JavaScript array holding numbers at every index. -/
def bump (l : List ℕ) (i : ℕ) : List ℕ := l.set i (l.getD i 0 + 1)

/-- `hourlyCounts`: `Array(24).fill(0)` then `hourlyCounts[utcHour]++`
per commit. -/
def hourlyCounts (commits : List Commit) : List ℕ :=
  commits.foldl (fun acc c => bump acc (utcHour c.timestamp_unix))
    (List.replicate 24 0)

/-- `grid[d][h]++` on a matrix of numbers. -/
def bump2 (g : List (List ℕ)) (d h : ℕ) : List (List ℕ) :=
  g.set d (bump (g.getD d []) h)

/-- `heatmapGrid`: `Array(7).fill(null).map(() => Array(24).fill(0))` then
`heatmapGrid[day][utcHour]++` per commit. -/
def heatmapGrid (commits : List Commit) : List (List ℕ) :=
  commits.foldl
    (fun acc c => bump2 acc (utcDay c.timestamp_unix) (utcHour c.timestamp_unix))
    (List.replicate 7 (List.replicate 24 0))

/-- `obj[k] = (obj[k] || 0) + 1` on a JavaScript object viewed as an
insertion-ordered association list. -/
def incKey (m : List (String × ℕ)) (k : String) : List (String × ℕ) :=
  if m.any (fun p => p.1 = k) then
    m.map (fun p => if p.1 = k then (p.1, p.2 + 1) else p)
  else m ++ [(k, 1)]

/-- `countryCounts`: `countryCounts[c.location_iso3] =
(countryCounts[c.location_iso3] || 0) + 1` per commit.  Note that the code
uses the commit's `location_iso3` value literally as the key, whatever it
is. -/
def countryCounts (commits : List Commit) : List (String × ℕ) :=
  commits.foldl (fun m c => incKey m c.location_iso3) []

/-- One entry of `contributorStats`: `{ id, name, count, location }`. -/
structure ContributorStat where
  id : String
  name : String
  count : ℕ
  location : String
deriving DecidableEq, Repr

/-- The `contributorStats` update of the aggregation loop: if the id is
absent, insert `{ id, name, count: 0, location: c.location_iso3 }`; then
`contributorStats[c.contributor_id].count++`.  The `name` and `location`
fields are written only by the insertion, never afterwards. -/
def updContrib (m : List ContributorStat) (c : Commit) : List ContributorStat :=
  let m1 := if m.any (fun s => s.id = c.contributor_id) then m
    else m ++ [⟨c.contributor_id, c.contributor_name, 0, c.location_iso3⟩]
  m1.map (fun s =>
    if s.id = c.contributor_id then { s with count := s.count + 1 } else s)

/-- `contributorStats` after the whole aggregation pass
(`Object.values` order = insertion order). -/
def contributorStats (commits : List Commit) : List ContributorStat :=
  commits.foldl updContrib []

/-- `hour.toString().padStart(2, '0')`. -/
def pad2 (n : ℕ) : String := if n < 10 then "0" ++ toString n else toString n

/-- `hriData = hourlyCounts.map((count, hour) => ({ hour: pad2(hour),
commits: count }))`, as (label, count) pairs. -/
def hriData (commits : List Commit) : List (String × ℕ) :=
  (hourlyCounts commits).enum.map (fun p => (pad2 p.1, p.2))

/-- `countryData = Object.entries(countryCounts).sort(([,a],[,b]) => b - a)`:
a stable descending sort by count of the insertion-ordered entries. -/
def countryData (commits : List Commit) : List (String × ℕ) :=
  (countryCounts commits).mergeSort (fun a b => b.2 ≤ a.2)

/-- `pieData`: the first 5 entries of the sorted country data followed by a
synthetic `'Others'` entry holding the sum of the rest, appended only when
that sum is positive (GlobalPulse_Analytics_Pro version). -/
def pieData (sorted : List (String × ℕ)) : List (String × ℕ) :=
  let top5 := sorted.take 5
  let otherCommits := ((sorted.drop 5).map (fun p => p.2)).sum
  top5 ++ (if 0 < otherCommits then [("Others", otherCommits)] else [])

/-- `filteredContributors`: `Object.values(contributorStats)`, restricted to
`c.location === regionFilter` when a filter is set, stably sorted by
descending `count`, truncated to the first 10. -/
def filteredContributors (commits : List Commit) (regionFilter : Option String) :
    List ContributorStat :=
  let base := contributorStats commits
  let fil : List ContributorStat := match regionFilter with
    | some f => base.filter (fun s => s.location = f)
    | none => base
  (fil.mergeSort (fun a b => b.count ≤ a.count)).take 10

/-- `parseFloat(x.toFixed(2))`: rounding to two decimal places (JavaScript
`toFixed` rounds halves away from zero; every value rounded in this code is
non-negative, where that agrees with `round`). -/
noncomputable def round2 (x : ℝ) : ℝ := (round (100 * x) : ℤ) / 100

/-- `parseFloat(x.toFixed(0))`: rounding to the nearest integer. -/
noncomputable def round0 (x : ℝ) : ℝ := (round x : ℤ)

/-- `diversityScore`: with `numUniqueCountries = Object.keys(countryCounts)
.length`, the value is `parseFloat((Math.min(1, Math.log(k) / Math.log(8)))
.toFixed(2))` when `k > 0`, else `0` (GlobalPulse_Analytics_Pro version). -/
noncomputable def diversityScore (counts : List (String × ℕ)) : ℝ :=
  let numUniqueCountries := counts.length
  if 0 < numUniqueCountries then
    round2 (min 1 (Real.log numUniqueCountries / Real.log 8))
  else 0

/-- `hriCoverage = hriData.filter(d => d.commits > 0).length / 24`. -/
noncomputable def hriCoverage (commits : List Commit) : ℝ :=
  (((hriData commits).filter (fun d => 0 < d.2)).length : ℝ) / 24

/-- `hriScore = parseFloat(hriCoverage.toFixed(2))`. -/
noncomputable def hriScore (commits : List Commit) : ℝ := round2 (hriCoverage commits)

/-- `globalScore = parseFloat(((hriScore * 0.5) + (diversityScore * 0.5))
.toFixed(2))` (GlobalPulse_Analytics_Pro version). -/
noncomputable def globalScore (commits : List Commit) : ℝ :=
  round2 (hriScore commits * 0.5 + diversityScore (countryCounts commits) * 0.5)

/-- `openRank = parseFloat((1.5 + Math.random() * 0.5 + globalScore)
.toFixed(2))`; `r` is the value drawn from `Math.random()` during the
invocation. -/
noncomputable def openRank (commits : List Commit) (r : ℝ) : ℝ :=
  round2 (1.5 + r * 0.5 + globalScore commits)

/-- `totalContributors = new Set(commits.map(c => c.contributor_id)).size`. -/
def totalContributors (commits : List Commit) : ℕ :=
  (commits.map (fun c => c.contributor_id)).dedup.length

/-- The record returned by GlobalPulse_Analytics_Pro's `useDataProcessor`
(pass-through fields `history`, `regionalHistory`, `radarData`, `rawData`,
which merely copy external mock inputs, are omitted).  The `hriCoverage`
field is the percentage `parseFloat((hriCoverage * 100).toFixed(0))`. -/
structure GPResult where
  hriData : List (String × ℕ)
  countryData : List (String × ℕ)
  diversityScore : ℝ
  pieData : List (String × ℕ)
  heatmapData : List (List ℕ)
  globalScore : ℝ
  openRank : ℝ
  totalCommits : ℕ
  totalContributors : ℕ
  rawCommits : List Commit
  hriCoverage : ℝ
  filteredContributors : List ContributorStat

/-- GlobalPulse_Analytics_Pro's `useDataProcessor` body: `if
(!commits.length) return null;` else aggregate, format and score.  `r` is
the `Math.random()` sample used by `openRank`. -/
noncomputable def GPprocess (commits : List Commit) (regionFilter : Option String)
    (r : ℝ) : Option GPResult :=
  if commits.isEmpty then none
  else some
    { hriData := hriData commits
      countryData := countryData commits
      diversityScore := diversityScore (countryCounts commits)
      pieData := pieData (countryData commits)
      heatmapData := heatmapGrid commits
      globalScore := globalScore commits
      openRank := openRank commits r
      totalCommits := commits.length
      totalContributors := totalContributors commits
      rawCommits := commits
      hriCoverage := round0 (hriCoverage commits * 100)
      filteredContributors := filteredContributors commits regionFilter }

/-- The `contributorStats` update of GlobalizationDashboard's loop: the same
as `updContrib` except that the inserted name is
`c.contributor_name || c.contributor_id`. -/
def GDupdContrib (m : List ContributorStat) (c : Commit) : List ContributorStat :=
  let m1 := if m.any (fun s => s.id = c.contributor_id) then m
    else m ++ [⟨c.contributor_id,
      if c.contributor_name = "" then c.contributor_id else c.contributor_name,
      0, c.location_iso3⟩]
  m1.map (fun s =>
    if s.id = c.contributor_id then { s with count := s.count + 1 } else s)

/-- GlobalizationDashboard's `contributorStats`. -/
def GDcontributorStats (commits : List Commit) : List ContributorStat :=
  commits.foldl GDupdContrib []

/-- GlobalizationDashboard's `pieData`: top 5 plus a `'其他地区'` remainder
entry when positive, then `.filter(d => d.value > 0)`. -/
def GDpieData (sorted : List (String × ℕ)) : List (String × ℕ) :=
  let top5 := sorted.take 5
  let otherCommits := ((sorted.drop 5).map (fun p => p.2)).sum
  (top5 ++ (if 0 < otherCommits then [("其他地区", otherCommits)] else [])).filter
    (fun d => 0 < d.2)

/-- GlobalizationDashboard's `diversityScore`:
`parseFloat((Math.min(1, Math.log(k) / Math.log(10)) * 0.9 +
Math.random() * 0.1).toFixed(2))` when `k > 0`, else `0`; `r1` is the
`Math.random()` sample. -/
noncomputable def GDdiversityScore (counts : List (String × ℕ)) (r1 : ℝ) : ℝ :=
  let numUniqueCountries := counts.length
  if 0 < numUniqueCountries then
    round2 (min 1 (Real.log numUniqueCountries / Real.log 10) * 0.9 + r1 * 0.1)
  else 0

/-- GlobalizationDashboard's `globalScore = parseFloat(((hriScore * 0.6) +
(diversityScore * 0.4)).toFixed(2))`. -/
noncomputable def GDglobalScore (commits : List Commit) (r1 : ℝ) : ℝ :=
  round2 (hriScore commits * 0.6 + GDdiversityScore (countryCounts commits) r1 * 0.4)

/-- GlobalizationDashboard's `openRank = parseFloat((1.5 + Math.random() *
0.5 - (1.5 * (1 - globalScore))).toFixed(2))`; `r2` is the second
`Math.random()` sample. -/
noncomputable def GDopenRank (commits : List Commit) (r1 r2 : ℝ) : ℝ :=
  round2 (1.5 + r2 * 0.5 - 1.5 * (1 - GDglobalScore commits r1))

/-- `topCountriesStr = countryData.slice(0, 5).map(c =>
c.name + ' (' + c.value + ')').join(', ')`. -/
def topCountriesStr (sorted : List (String × ℕ)) : String :=
  String.intercalate ", "
    ((sorted.take 5).map (fun c => c.1 ++ " (" ++ toString c.2 ++ ")"))

/-- The record returned by GlobalizationDashboard's `useDataProcessor`
(external pass-through fields `history`, `regionalHistory`, `radarData`
omitted). -/
structure GDResult where
  hriData : List (String × ℕ)
  countryData : List (String × ℕ)
  diversityScore : ℝ
  pieData : List (String × ℕ)
  heatmapData : List (List ℕ)
  globalScore : ℝ
  openRank : ℝ
  totalCommits : ℕ
  totalContributors : ℕ
  rawCommits : List Commit
  hriCoverage : ℝ
  topCountriesStr : String
  topContributors : List ContributorStat

/-- GlobalizationDashboard's `useDataProcessor` body: on empty input it
returns the literal record with empty arrays and zero scores; otherwise it
aggregates, formats and scores.  `r1`, `r2` are the two `Math.random()`
samples (diversity jitter, openRank jitter). -/
noncomputable def GDprocess (commits : List Commit) (r1 r2 : ℝ) : GDResult :=
  if commits.isEmpty then
    { hriData := []
      countryData := []
      diversityScore := 0
      pieData := []
      heatmapData := []
      globalScore := 0
      openRank := 0
      totalCommits := 0
      totalContributors := 0
      rawCommits := []
      hriCoverage := 0
      topCountriesStr := ""
      topContributors := [] }
  else
    { hriData := hriData commits
      countryData := countryData commits
      diversityScore := GDdiversityScore (countryCounts commits) r1
      pieData := GDpieData (countryData commits)
      heatmapData := heatmapGrid commits
      globalScore := GDglobalScore commits r1
      openRank := GDopenRank commits r1 r2
      totalCommits := commits.length
      totalContributors := totalContributors commits
      rawCommits := commits
      hriCoverage := round0 (hriCoverage commits * 100)
      topCountriesStr := topCountriesStr (countryData commits)
      topContributors :=
        ((GDcontributorStats commits).mergeSort (fun a b => b.count ≤ a.count)).take 8 }

/-- Modelled from the spec (§4.3): `timezoneCoverage = (count of hours in
histogram with value > 0) / 24`, an exact fraction with no rounding. -/
noncomputable def specTimezoneCoverage (hist : List ℕ) : ℝ :=
  ((hist.filter (fun v => 0 < v)).length : ℝ) / 24

/-- Modelled from the spec (§4.3 and claim C1): the number of distinct
country keys of a country-count mapping whose count is positive. -/
def specPositiveKeys (counts : List (String × ℕ)) : ℕ :=
  (counts.filter (fun p => 0 < p.2)).length

/-- The evolution of the `(id, location)` projection of `contributorStats`:
a pair is appended when the id is first seen and never changed afterwards. -/
def firstSeen (l : List (String × String)) (cs : List Commit) : List (String × String) :=
  cs.foldl (fun acc c =>
    if acc.any (fun p => p.1 = c.contributor_id) then acc
    else acc ++ [(c.contributor_id, c.location_iso3)]) l

/-! ### Rounding helper lemmas -/

lemma round2_eq_div (x : ℝ) (n : ℤ) (h1 : (n : ℝ) ≤ 100 * x + 1 / 2)
    (h2 : 100 * x + 1 / 2 < n + 1) : round2 x = n / 100 := by
  unfold round2
  rw [round_eq, Int.floor_eq_iff.mpr ⟨h1, by linarith⟩]

lemma round2_zero : round2 0 = 0 := by
  have := round2_eq_div 0 0 (by norm_num) (by norm_num)
  simpa using this

lemma round2_one : round2 1 = 1 := by
  have := round2_eq_div 1 100 (by norm_num) (by norm_num)
  simpa using this

/-! ### Invariants of the `countryCounts` aggregation -/

lemma keys_incKey (m : List (String × ℕ)) (k : String) :
    (incKey m k).map Prod.fst =
      if m.any (fun p => p.1 = k) then m.map Prod.fst
      else m.map Prod.fst ++ [k] := by
  unfold incKey
  split
  · rw [List.map_map]
    refine List.map_congr_left (fun p _ => ?_)
    by_cases hp : p.1 = k <;> simp [hp]
  · simp

lemma incKey_pos {m : List (String × ℕ)} {k : String}
    (h : ∀ p ∈ m, 0 < p.2) : ∀ p ∈ incKey m k, 0 < p.2 := by
  intro p hp
  unfold incKey at hp
  split at hp
  · obtain ⟨q, hq, hqp⟩ := List.mem_map.mp hp
    by_cases hqk : q.1 = k
    · simp only [hqk, if_pos rfl] at hqp
      subst hqp; exact Nat.succ_pos _
    · simp only [if_neg hqk] at hqp
      subst hqp; exact h q hq
  · rcases List.mem_append.mp hp with hl | hr
    · exact h p hl
    · simp only [List.mem_singleton] at hr
      subst hr; omega

lemma countryCounts_pos (commits : List Commit) :
    ∀ p ∈ countryCounts commits, 0 < p.2 := by
  suffices H : ∀ (cs : List Commit) (acc : List (String × ℕ)),
      (∀ p ∈ acc, 0 < p.2) →
      ∀ p ∈ cs.foldl (fun m c => incKey m c.location_iso3) acc, 0 < p.2 by
    exact H commits [] (by simp)
  intro cs
  induction cs with
  | nil => intro acc hacc p hp; exact hacc p hp
  | cons c cs ih =>
    intro acc hacc p hp
    exact ih (incKey acc c.location_iso3) (incKey_pos hacc) p hp

lemma incKey_keys_nodup {m : List (String × ℕ)} {k : String}
    (h : (m.map Prod.fst).Nodup) : ((incKey m k).map Prod.fst).Nodup := by
  rw [keys_incKey]
  split
  · exact h
  · next hany =>
    rw [List.nodup_append]
    refine ⟨h, List.nodup_singleton k, ?_⟩
    intro a ha hak
    simp only [List.mem_singleton] at hak
    subst hak
    obtain ⟨p, hp, hpk⟩ := List.mem_map.mp ha
    exact hany (List.any_eq_true.mpr ⟨p, hp, by simp [hpk]⟩)

/-- Incrementing the single entry carrying key `k` (keys are unique and `k`
is present) raises the total count by one. -/
lemma sum_incKey_bump {m : List (String × ℕ)} {k : String}
    (hnd : (m.map Prod.fst).Nodup) (hany : m.any (fun p => p.1 = k) = true) :
    ((m.map (fun p => if p.1 = k then (p.1, p.2 + 1) else p)).map
      (fun p => p.2)).sum = (m.map (fun p => p.2)).sum + 1 := by
  induction m with
  | nil => simp at hany
  | cons p m ih =>
    simp only [List.map_cons, List.nodup_cons] at hnd ⊢
    by_cases hpk : p.1 = k
    · have hnot : ∀ q ∈ m, ¬(q.1 = k) := by
        intro q hq hqk
        exact hnd.1 (by rw [← hpk] at hqk; exact hqk ▸ List.mem_map_of_mem Prod.fst hq)
      have hm : m.map (fun q => if q.1 = k then (q.1, q.2 + 1) else q) = m := by
        refine (List.map_congr_left (fun q hq => ?_)).trans (List.map_id m)
        simp [if_neg (hnot q hq)]
      simp only [if_pos hpk, hm, List.sum_cons]
      omega
    · have hany' : m.any (fun p => p.1 = k) = true := by
        rcases List.any_eq_true.mp hany with ⟨q, hq, hqk⟩
        rcases List.mem_cons.mp hq with rfl | hq'
        · simp at hqk; exact absurd hqk hpk
        · exact List.any_eq_true.mpr ⟨q, hq', hqk⟩
      simp only [if_neg hpk, List.sum_cons, ih hnd.2 hany']
      omega

lemma sum_incKey {m : List (String × ℕ)} {k : String}
    (hnd : (m.map Prod.fst).Nodup) :
    ((incKey m k).map (fun p => p.2)).sum = (m.map (fun p => p.2)).sum + 1 := by
  unfold incKey
  split
  · next hany => exact sum_incKey_bump hnd hany
  · simp

lemma countryCounts_sum (commits : List Commit) :
    ((countryCounts commits).map (fun p => p.2)).sum = commits.length := by
  suffices H : ∀ (cs : List Commit) (acc : List (String × ℕ)),
      (acc.map Prod.fst).Nodup →
      ((cs.foldl (fun m c => incKey m c.location_iso3) acc).map
        (fun p => p.2)).sum = (acc.map (fun p => p.2)).sum + cs.length by
    simpa using H commits [] (by simp)
  intro cs
  induction cs with
  | nil => intro acc hacc; simp
  | cons c cs ih =>
    intro acc hacc
    simp only [List.foldl_cons, List.length_cons]
    rw [ih (incKey acc c.location_iso3) (incKey_keys_nodup hacc),
      sum_incKey hacc]
    omega

lemma countryCounts_key_mem (commits : List Commit) :
    ∀ c ∈ commits, c.location_iso3 ∈ (countryCounts commits).map Prod.fst := by
  suffices H : ∀ (cs : List Commit) (acc : List (String × ℕ)) (key : String),
      (key ∈ acc.map Prod.fst ∨ ∃ c ∈ cs, c.location_iso3 = key) →
      key ∈ (cs.foldl (fun m c => incKey m c.location_iso3) acc).map Prod.fst by
    intro c hc
    exact H commits [] c.location_iso3 (Or.inr ⟨c, hc, rfl⟩)
  intro cs
  induction cs with
  | nil =>
    intro acc key hkey
    rcases hkey with h | ⟨c, hc, _⟩
    · simpa using h
    · simp at hc
  | cons c cs ih =>
    intro acc key hkey
    simp only [List.foldl_cons]
    have step : key ∈ acc.map Prod.fst ∨ key = c.location_iso3 →
        key ∈ (incKey acc c.location_iso3).map Prod.fst := by
      intro h
      rw [keys_incKey]
      split
      · next hany =>
        rcases h with h | rfl
        · exact h
        · rcases List.any_eq_true.mp hany with ⟨p, hp, hpk⟩
          simp only [decide_eq_true_eq] at hpk
          exact hpk ▸ List.mem_map_of_mem Prod.fst hp
      · rcases h with h | rfl
        · exact List.mem_append.mpr (Or.inl h)
        · simp
    rcases hkey with h | ⟨c', hc', hkey'⟩
    · exact ih _ key (Or.inl (step (Or.inl h)))
    · rcases List.mem_cons.mp hc' with rfl | hc''
      · exact ih _ key (Or.inl (step (Or.inr hkey'.symm)))
      · exact ih _ key (Or.inr ⟨c', hc'', hkey'⟩)

/-! ### Invariants of the `contributorStats` aggregation -/

/-- `List.any` over a mapped list (heterogeneous version). -/
lemma any_map' {α β : Type} (f : α → β) (l : List α) (p : β → Bool) :
    (l.map f).any p = l.any (fun a => p (f a)) := by
  induction l with
  | nil => rfl
  | cons a l ih => simp [ih]

/-- The count-increment pass of `updContrib` leaves any projection that
ignores `count` unchanged. -/
lemma map_bumpCount_proj {β : Type} (f : ContributorStat → β)
    (hf : ∀ s, f { s with count := s.count + 1 } = f s)
    (m : List ContributorStat) (cid : String) :
    ((m.map (fun s => if s.id = cid then { s with count := s.count + 1 } else s)).map f)
      = m.map f := by
  rw [List.map_map]
  refine List.map_congr_left (fun s _ => ?_)
  show f (if s.id = cid then { s with count := s.count + 1 } else s) = f s
  by_cases h : s.id = cid
  · rw [if_pos h]; exact hf s
  · rw [if_neg h]

lemma updContrib_ids (m : List ContributorStat) (c : Commit) :
    (updContrib m c).map (fun s => s.id) =
      if m.any (fun s => s.id = c.contributor_id) then m.map (fun s => s.id)
      else m.map (fun s => s.id) ++ [c.contributor_id] := by
  unfold updContrib
  split
  · rw [map_bumpCount_proj (fun s => s.id) (fun s => rfl)]
  · rw [map_bumpCount_proj (fun s => s.id) (fun s => rfl), List.map_append]
    rfl

lemma updContrib_nodup {m : List ContributorStat} {c : Commit}
    (hnd : (m.map (fun s => s.id)).Nodup) :
    ((updContrib m c).map (fun s => s.id)).Nodup := by
  rw [updContrib_ids]
  split
  · exact hnd
  · next hany =>
    rw [List.nodup_append]
    refine ⟨hnd, List.nodup_singleton _, ?_⟩
    intro a ha hak
    simp only [List.mem_singleton] at hak
    subst hak
    obtain ⟨s, hs, hsk⟩ := List.mem_map.mp ha
    exact hany (List.any_eq_true.mpr ⟨s, hs, by simp [hsk]⟩)

lemma sum_bumpCount {m : List ContributorStat} {cid : String}
    (hnd : (m.map (fun s => s.id)).Nodup)
    (hany : m.any (fun s => s.id = cid) = true) :
    ((m.map (fun s => if s.id = cid then { s with count := s.count + 1 } else s)).map
      (fun s => s.count)).sum = (m.map (fun s => s.count)).sum + 1 := by
  induction m with
  | nil => simp at hany
  | cons s m ih =>
    simp only [List.map_cons, List.nodup_cons] at hnd ⊢
    by_cases hsk : s.id = cid
    · have hnot : ∀ q ∈ m, ¬(q.id = cid) := by
        intro q hq hqk
        exact hnd.1 (by
          rw [← hsk] at hqk
          exact hqk ▸ List.mem_map_of_mem (fun s => s.id) hq)
      have hm : m.map (fun q => if q.id = cid then { q with count := q.count + 1 } else q)
          = m := by
        refine (List.map_congr_left (fun q hq => ?_)).trans (List.map_id m)
        simp [if_neg (hnot q hq)]
      simp only [if_pos hsk, hm, List.sum_cons]
      omega
    · have hany' : m.any (fun s => s.id = cid) = true := by
        rcases List.any_eq_true.mp hany with ⟨q, hq, hqk⟩
        rcases List.mem_cons.mp hq with rfl | hq'
        · simp only [decide_eq_true_eq] at hqk; exact absurd hqk hsk
        · exact List.any_eq_true.mpr ⟨q, hq', hqk⟩
      simp only [if_neg hsk, List.sum_cons, ih hnd.2 hany']
      omega

lemma sum_updContrib {m : List ContributorStat} {c : Commit}
    (hnd : (m.map (fun s => s.id)).Nodup) :
    ((updContrib m c).map (fun s => s.count)).sum
      = (m.map (fun s => s.count)).sum + 1 := by
  unfold updContrib
  split
  · next hany => exact sum_bumpCount hnd hany
  · next hany =>
    have hnotin : c.contributor_id ∉ m.map (fun s => s.id) := by
      intro hmem
      obtain ⟨s, hs, hsk⟩ := List.mem_map.mp hmem
      exact hany (List.any_eq_true.mpr ⟨s, hs, by simp [hsk]⟩)
    have hnd' : ((m ++ [(⟨c.contributor_id, c.contributor_name, 0, c.location_iso3⟩ :
        ContributorStat)]).map (fun s => s.id)).Nodup := by
      rw [List.map_append, List.nodup_append]
      refine ⟨hnd, List.nodup_singleton _, ?_⟩
      intro a ha hak
      simp only [List.map_cons, List.map_nil, List.mem_singleton] at hak
      subst hak
      exact hnotin ha
    have hany' : (m ++ [(⟨c.contributor_id, c.contributor_name, 0, c.location_iso3⟩ :
        ContributorStat)]).any (fun s => s.id = c.contributor_id) = true := by
      refine List.any_eq_true.mpr ⟨_, List.mem_append.mpr (Or.inr (List.mem_singleton.mpr rfl)), ?_⟩
      simp
    rw [sum_bumpCount hnd' hany', List.map_append, List.sum_append]
    simp

lemma contributorStats_nodup (commits : List Commit) :
    ((contributorStats commits).map (fun s => s.id)).Nodup := by
  suffices H : ∀ (cs : List Commit) (acc : List ContributorStat),
      (acc.map (fun s => s.id)).Nodup →
      ((cs.foldl updContrib acc).map (fun s => s.id)).Nodup by
    exact H commits [] (by simp)
  intro cs
  induction cs with
  | nil => intro acc hacc; exact hacc
  | cons c cs ih => intro acc hacc; exact ih _ (updContrib_nodup hacc)

lemma contributorStats_sum (commits : List Commit) :
    ((contributorStats commits).map (fun s => s.count)).sum = commits.length := by
  suffices H : ∀ (cs : List Commit) (acc : List ContributorStat),
      (acc.map (fun s => s.id)).Nodup →
      ((cs.foldl updContrib acc).map (fun s => s.count)).sum
        = (acc.map (fun s => s.count)).sum + cs.length by
    simpa using H commits [] (by simp)
  intro cs
  induction cs with
  | nil => intro acc hacc; simp
  | cons c cs ih =>
    intro acc hacc
    simp only [List.foldl_cons, List.length_cons]
    rw [ih _ (updContrib_nodup hacc), sum_updContrib hacc]
    omega

/-! ### First-seen semantics of the contributor `location` field -/

lemma proj_updContrib (m : List ContributorStat) (c : Commit) :
    (updContrib m c).map (fun s => (s.id, s.location)) =
      if m.any (fun s => s.id = c.contributor_id) then
        m.map (fun s => (s.id, s.location))
      else m.map (fun s => (s.id, s.location)) ++ [(c.contributor_id, c.location_iso3)] := by
  unfold updContrib
  split
  · rw [map_bumpCount_proj (fun s => (s.id, s.location)) (fun s => rfl)]
  · rw [map_bumpCount_proj (fun s => (s.id, s.location)) (fun s => rfl), List.map_append]
    rfl

lemma contributorStats_proj (cs : List Commit) :
    ∀ acc : List ContributorStat,
      (cs.foldl updContrib acc).map (fun s => (s.id, s.location)) =
        firstSeen (acc.map (fun s => (s.id, s.location))) cs := by
  induction cs with
  | nil => intro acc; rfl
  | cons c cs ih =>
    intro acc
    have hstep : firstSeen (acc.map (fun s => (s.id, s.location))) (c :: cs) =
        firstSeen
          (if (acc.map (fun s => (s.id, s.location))).any (fun p => p.1 = c.contributor_id)
            then acc.map (fun s => (s.id, s.location))
            else acc.map (fun s => (s.id, s.location)) ++ [(c.contributor_id, c.location_iso3)])
          cs := rfl
    rw [hstep]
    show (cs.foldl updContrib (updContrib acc c)).map (fun s => (s.id, s.location)) = _
    rw [ih (updContrib acc c)]
    congr 1
    rw [proj_updContrib, any_map']

lemma firstSeen_spec (cs : List Commit) :
    ∀ (l : List (String × String)) (p : String × String), p ∈ firstSeen l cs →
      p ∈ l ∨ (p.1 ∉ l.map Prod.fst ∧
        (cs.find? (fun c => c.contributor_id = p.1)).map (fun c => c.location_iso3)
          = some p.2) := by
  induction cs with
  | nil => intro l p hp; exact Or.inl hp
  | cons c cs ih =>
    intro l p hp
    simp only [firstSeen, List.foldl_cons] at hp
    by_cases h : l.any (fun q => q.1 = c.contributor_id) = true
    · rw [if_pos h] at hp
      rcases ih l p hp with hl | ⟨hnot, hfind⟩
      · exact Or.inl hl
      · refine Or.inr ⟨hnot, ?_⟩
        have hne : ¬(c.contributor_id = p.1) := by
          intro he
          rcases List.any_eq_true.mp h with ⟨q, hq, hqk⟩
          simp only [decide_eq_true_eq] at hqk
          exact hnot (he ▸ hqk ▸ List.mem_map_of_mem Prod.fst hq)
        rw [List.find?_cons_of_neg _ (by simpa using hne)]
        exact hfind
    · rw [if_neg h] at hp
      rcases ih _ p hp with hl | ⟨hnot, hfind⟩
      · rcases List.mem_append.mp hl with hll | hlr
        · exact Or.inl hll
        · simp only [List.mem_singleton] at hlr
          subst hlr
          refine Or.inr ⟨?_, ?_⟩
          · intro hmem
            obtain ⟨q, hq, hqk⟩ := List.mem_map.mp hmem
            exact h (List.any_eq_true.mpr ⟨q, hq, by simp [hqk]⟩)
          · rw [List.find?_cons_of_pos _ (by simp)]
            rfl
      · rw [List.map_append] at hnot
        simp only [List.map_cons, List.map_nil, List.mem_append,
          List.mem_singleton, not_or] at hnot
        refine Or.inr ⟨hnot.1, ?_⟩
        rw [List.find?_cons_of_neg _ (by simpa using fun he => hnot.2 he.symm)]
        exact hfind

/-- Every recorded contributor entry carries the country (and the stats of)
the FIRST processed event with that contributor id. -/
lemma contributorStats_location (commits : List Commit) :
    ∀ s ∈ contributorStats commits,
      (commits.find? (fun c => c.contributor_id = s.id)).map (fun c => c.location_iso3)
        = some s.location := by
  intro s hs
  have hproj : (s.id, s.location) ∈
      (contributorStats commits).map (fun s => (s.id, s.location)) :=
    List.mem_map_of_mem _ hs
  have h0 : (contributorStats commits).map (fun s => (s.id, s.location)) =
      firstSeen [] commits := contributorStats_proj commits []
  rw [h0] at hproj
  rcases firstSeen_spec commits _ _ hproj with hl | ⟨_, hfind⟩
  · simp at hl
  · exact hfind

/-! ### Heatmap-histogram invariant machinery -/

lemma bump_length (l : List ℕ) (i : ℕ) : (bump l i).length = l.length :=
  List.length_set l i _

lemma bump_getD {l : List ℕ} {i : ℕ} (j : ℕ) (hi : i < l.length) :
    (bump l i).getD j 0 = l.getD j 0 + if j = i then 1 else 0 := by
  unfold bump
  by_cases hji : j = i
  · subst hji
    rw [List.getD_eq_getElem?_getD, List.getElem?_set_self hi,
      List.getD_eq_getElem?_getD]
    simp
  · rw [List.getD_eq_getElem?_getD, List.getElem?_set_ne (fun h => hji h.symm),
      ← List.getD_eq_getElem?_getD, if_neg hji]
    omega

lemma getD_replicate_zero (n j : ℕ) : (List.replicate n (0 : ℕ)).getD j 0 = 0 := by
  rw [List.getD_eq_getElem?_getD, List.getElem?_replicate]
  split <;> rfl

lemma init_colsum (hour : ℕ) :
    ((List.replicate 7 (List.replicate 24 (0 : ℕ))).map
      (fun row => row.getD hour 0)).sum = (List.replicate 24 (0 : ℕ)).getD hour 0 := by
  have h1 : (List.replicate 7 (List.replicate 24 (0 : ℕ))).map (fun row => row.getD hour 0)
      = List.replicate 7 ((List.replicate 24 (0 : ℕ)).getD hour 0) :=
    List.map_replicate
  rw [h1, getD_replicate_zero]
  simp

/-- Replacing one row changes a per-row map-sum by the difference at that
row, expressed additively. -/
lemma sum_map_set (f : List ℕ → ℕ) :
    ∀ (g : List (List ℕ)) (d : ℕ) (r : List ℕ), d < g.length →
      ((g.set d r).map f).sum + f (g.getD d []) = (g.map f).sum + f r := by
  intro g
  induction g with
  | nil => intro d r hd; simp at hd
  | cons a g ih =>
    intro d r hd
    cases d with
    | zero => simp [List.set]; omega
    | succ d =>
      rw [List.set_cons_succ, List.getD_cons_succ]
      simp only [List.map_cons, List.sum_cons]
      have := ih d r (by simpa using Nat.lt_of_succ_lt_succ hd)
      omega

/-- The joint invariant maintained by the aggregation loop over
`hourlyCounts` and `heatmapGrid`: shapes stay `24` and `7 × 24`, and each
hour column of the grid sums to the histogram bucket. -/
lemma heatmap_fold_inv (cs : List Commit) :
    ∀ (hist : List ℕ) (grid : List (List ℕ)),
      hist.length = 24 → grid.length = 7 → (∀ row ∈ grid, row.length = 24) →
      (∀ hour : ℕ, hour < 24 →
        ((grid.map (fun row => row.getD hour 0)).sum = hist.getD hour 0)) →
      (cs.foldl (fun acc c => bump acc (utcHour c.timestamp_unix)) hist).length = 24 ∧
      (cs.foldl (fun acc c =>
        bump2 acc (utcDay c.timestamp_unix) (utcHour c.timestamp_unix)) grid).length = 7 ∧
      (∀ row ∈ cs.foldl (fun acc c =>
        bump2 acc (utcDay c.timestamp_unix) (utcHour c.timestamp_unix)) grid,
        row.length = 24) ∧
      (∀ hour : ℕ, hour < 24 →
        ((cs.foldl (fun acc c =>
            bump2 acc (utcDay c.timestamp_unix) (utcHour c.timestamp_unix)) grid).map
          (fun row => row.getD hour 0)).sum
        = (cs.foldl (fun acc c => bump acc (utcHour c.timestamp_unix)) hist).getD hour 0) := by
  induction cs with
  | nil =>
    intro hist grid h24 h7 hrows hcol
    exact ⟨h24, h7, hrows, hcol⟩
  | cons c cs ih =>
    intro hist grid h24 h7 hrows hcol
    simp only [List.foldl_cons]
    have hhour : utcHour c.timestamp_unix < 24 := Nat.mod_lt _ (by norm_num)
    have hday : utcDay c.timestamp_unix < 7 := Nat.mod_lt _ (by norm_num)
    have hdlen : utcDay c.timestamp_unix < grid.length := by rw [h7]; exact hday
    have hrowmem : grid.getD (utcDay c.timestamp_unix) [] ∈ grid := by
      rw [List.getD_eq_getElem _ _ hdlen]
      exact List.getElem_mem hdlen
    have hrowlen : (grid.getD (utcDay c.timestamp_unix) []).length = 24 :=
      hrows _ hrowmem
    refine ih (bump hist (utcHour c.timestamp_unix))
      (bump2 grid (utcDay c.timestamp_unix) (utcHour c.timestamp_unix))
      (by rw [bump_length, h24]) (by unfold bump2; rw [List.length_set, h7]) ?_ ?_
    · intro row hrow
      rcases List.mem_or_eq_of_mem_set hrow with hmem | heq
      · exact hrows row hmem
      · rw [heq, bump_length]; exact hrowlen
    · intro hour hhour24
      have hkey : ((grid.set (utcDay c.timestamp_unix)
            (bump (grid.getD (utcDay c.timestamp_unix) []) (utcHour c.timestamp_unix))).map
            (fun row => row.getD hour 0)).sum
          + (grid.getD (utcDay c.timestamp_unix) []).getD hour 0
          = (grid.map (fun row => row.getD hour 0)).sum
          + (bump (grid.getD (utcDay c.timestamp_unix) [])
              (utcHour c.timestamp_unix)).getD hour 0 :=
        sum_map_set (fun row => row.getD hour 0) grid
          (utcDay c.timestamp_unix)
          (bump (grid.getD (utcDay c.timestamp_unix) []) (utcHour c.timestamp_unix)) hdlen
      have hbumprow : (bump (grid.getD (utcDay c.timestamp_unix) [])
          (utcHour c.timestamp_unix)).getD hour 0
          = (grid.getD (utcDay c.timestamp_unix) []).getD hour 0
            + if hour = utcHour c.timestamp_unix then 1 else 0 :=
        bump_getD hour (by rw [hrowlen]; exact hhour)
      have hbumphist : (bump hist (utcHour c.timestamp_unix)).getD hour 0
          = hist.getD hour 0 + if hour = utcHour c.timestamp_unix then 1 else 0 :=
        bump_getD hour (by rw [h24]; exact hhour)
      have hcol' := hcol hour hhour24
      unfold bump2 at *
      omega

lemma hourlyCounts_length (commits : List Commit) :
    (hourlyCounts commits).length = 24 :=
  (heatmap_fold_inv commits (List.replicate 24 0) (List.replicate 7 (List.replicate 24 0))
    (by simp) (by simp) (fun row hrow => by rw [List.eq_of_mem_replicate hrow]; simp)
    (fun hour _ => init_colsum hour)).1

lemma heatmapGrid_length (commits : List Commit) :
    (heatmapGrid commits).length = 7 :=
  (heatmap_fold_inv commits (List.replicate 24 0) (List.replicate 7 (List.replicate 24 0))
    (by simp) (by simp) (fun row hrow => by rw [List.eq_of_mem_replicate hrow]; simp)
    (fun hour _ => init_colsum hour)).2.1

lemma heatmap_colsum (commits : List Commit) :
    ∀ hour : ℕ, hour < 24 →
      ((heatmapGrid commits).map (fun row => row.getD hour 0)).sum
        = (hourlyCounts commits).getD hour 0 :=
  (heatmap_fold_inv commits (List.replicate 24 0) (List.replicate 7 (List.replicate 24 0))
    (by simp) (by simp) (fun row hrow => by rw [List.eq_of_mem_replicate hrow]; simp)
    (fun hour _ => init_colsum hour)).2.2.2

/-! ### Coverage and score support lemmas -/

lemma enumFrom_filter_length (l : List ℕ) :
    ∀ n : ℕ, (((List.enumFrom n l).map (fun p => (pad2 p.1, p.2))).filter
      (fun d => 0 < d.2)).length = (l.filter (fun v => 0 < v)).length := by
  induction l with
  | nil => intro n; rfl
  | cons a l ih =>
    intro n
    rw [List.enumFrom_cons]
    simp only [List.map_cons, List.filter_cons]
    by_cases ha : 0 < a
    · rw [if_pos (by simpa using ha), if_pos (by simpa using ha)]
      simp [ih (n + 1)]
    · rw [if_neg (by simpa using ha), if_neg (by simpa using ha), ih (n + 1)]

lemma hriData_filter_length (commits : List Commit) :
    ((hriData commits).filter (fun d => 0 < d.2)).length
      = ((hourlyCounts commits).filter (fun v => 0 < v)).length := by
  unfold hriData
  exact enumFrom_filter_length (hourlyCounts commits) 0

/-- The coverage fraction computed from the formatted `hriData` equals the
spec's definition directly on the histogram. -/
lemma hriCoverage_eq_spec (commits : List Commit) :
    hriCoverage commits = specTimezoneCoverage (hourlyCounts commits) := by
  unfold hriCoverage specTimezoneCoverage
  rw [hriData_filter_length]

lemma log2_div_log8 : Real.log 2 / Real.log 8 = 1 / 3 := by
  have h8 : (8 : ℝ) = 2 ^ 3 := by norm_num
  have h2 : Real.log 2 ≠ 0 := ne_of_gt (Real.log_pos (by norm_num))
  rw [h8, Real.log_pow]
  push_cast
  field_simp
  ring

lemma diversityScore_singleton (p : String × ℕ) : diversityScore [p] = 0 := by
  simp only [diversityScore, List.length_singleton]
  rw [if_pos (by norm_num)]
  norm_num [Real.log_one, round2_zero]

/-! ### Ranking support lemmas -/

lemma mem_filteredContributors {commits : List Commit} {f : String}
    {s : ContributorStat} (hs : s ∈ filteredContributors commits (some f)) :
    s ∈ contributorStats commits ∧ s.location = f := by
  unfold filteredContributors at hs
  have h1 : s ∈ ((contributorStats commits).filter
      (fun s => s.location = f)).mergeSort (fun a b => b.count ≤ a.count) :=
    List.mem_of_mem_take hs
  have h2 := List.mem_mergeSort.mp h1
  exact ⟨(List.mem_filter.mp h2).1, by
    simpa using (List.mem_filter.mp h2).2⟩

lemma filteredContributors_complete {commits : List Commit} {f : String}
    (hlen : ((contributorStats commits).filter (fun s => s.location = f)).length ≤ 10)
    {s : ContributorStat} (hs : s ∈ contributorStats commits)
    (hloc : s.location = f) : s ∈ filteredContributors commits (some f) := by
  unfold filteredContributors
  have hmem : s ∈ (contributorStats commits).filter (fun s => s.location = f) :=
    List.mem_filter.mpr ⟨hs, by simpa using hloc⟩
  have hmem' : s ∈ ((contributorStats commits).filter
      (fun s => s.location = f)).mergeSort (fun a b => b.count ≤ a.count) :=
    List.mem_mergeSort.mpr hmem
  rw [List.take_of_length_le (by rw [List.length_mergeSort]; exact hlen)]
  exact hmem'

/-! ### Concrete evaluation lemmas for the single-commit test input -/

lemma hriCoverage_ev3600 : hriCoverage [⟨3600, "USA", "u1", "A"⟩] = 1 / 24 := by
  unfold hriCoverage
  rw [hriData_filter_length]
  norm_num [show ((hourlyCounts [⟨3600, "USA", "u1", "A"⟩]).filter
    (fun v => 0 < v)).length = 1 from rfl]

lemma hriScore_ev3600 : hriScore [⟨3600, "USA", "u1", "A"⟩] = 4 / 100 := by
  unfold hriScore
  rw [hriCoverage_ev3600]
  exact round2_eq_div _ 4 (by norm_num) (by norm_num)

lemma diversityScore_ev3600 :
    diversityScore (countryCounts [⟨3600, "USA", "u1", "A"⟩]) = 0 := by
  have h : countryCounts [⟨3600, "USA", "u1", "A"⟩] = [("USA", 1)] := rfl
  rw [h]
  exact diversityScore_singleton _

lemma globalScore_ev3600 : globalScore [⟨3600, "USA", "u1", "A"⟩] = 2 / 100 := by
  unfold globalScore
  rw [hriScore_ev3600, diversityScore_ev3600]
  have h : (4 : ℝ) / 100 * 0.5 + 0 * 0.5 = 1 / 50 := by norm_num
  rw [h]
  exact round2_eq_div _ 2 (by norm_num) (by norm_num)

/-! ### Claim C1 -/

/-- Claim C1 (amended): for every aggregated country-count mapping, with
`k` the number of distinct country keys with count > 0, `diversityScore` is
0 when `k = 0` and otherwise is `min(1, ln k / ln 8)` ROUNDED TO TWO
DECIMAL PLACES (the code applies `.toFixed(2)`); in particular it still
reaches exactly 1 for every `k ≥ 8`. -/
theorem C1_geo_diversity (commits : List Commit) :
    (specPositiveKeys (countryCounts commits) = 0 →
      diversityScore (countryCounts commits) = 0) ∧
    (0 < specPositiveKeys (countryCounts commits) →
      diversityScore (countryCounts commits)
        = round2 (min 1 (Real.log (specPositiveKeys (countryCounts commits))
            / Real.log 8))) ∧
    (8 ≤ specPositiveKeys (countryCounts commits) →
      diversityScore (countryCounts commits) = 1) := by
  have hfil : (countryCounts commits).filter (fun p => 0 < p.2)
      = countryCounts commits :=
    List.filter_eq_self.mpr (fun p hp => by simpa using countryCounts_pos commits p hp)
  have hk : specPositiveKeys (countryCounts commits)
      = (countryCounts commits).length := by
    unfold specPositiveKeys
    rw [hfil]
  refine ⟨?_, ?_, ?_⟩
  · intro h0
    rw [hk] at h0
    simp only [diversityScore]
    rw [if_neg (by omega)]
  · intro hpos
    rw [hk] at hpos
    simp only [diversityScore]
    rw [if_pos hpos, hk]
  · intro h8
    have hpos : 0 < (countryCounts commits).length := by rw [← hk]; omega
    simp only [diversityScore]
    rw [if_pos hpos]
    have h8n : 8 ≤ (countryCounts commits).length := by rw [← hk]; exact h8
    have h8r : (8 : ℝ) ≤ ((countryCounts commits).length : ℝ) := by exact_mod_cast h8n
    have hlog8 : 0 < Real.log 8 := Real.log_pos (by norm_num)
    have hle : Real.log 8 ≤ Real.log ((countryCounts commits).length : ℝ) :=
      Real.log_le_log (by norm_num) h8r
    have hone : 1 ≤ Real.log ((countryCounts commits).length : ℝ) / Real.log 8 :=
      (one_le_div hlog8).mpr hle
    rw [min_eq_left hone, round2_one]

/-- Witness for C1: eight events in eight distinct countries give a
diversity score of exactly 1. -/
theorem C1_witness :
    diversityScore (countryCounts
      [⟨0, "USA", "u1", "A"⟩, ⟨0, "CHN", "u1", "A"⟩, ⟨0, "DEU", "u1", "A"⟩,
       ⟨0, "IND", "u1", "A"⟩, ⟨0, "JPN", "u1", "A"⟩, ⟨0, "GBR", "u1", "A"⟩,
       ⟨0, "BRA", "u1", "A"⟩, ⟨0, "AUS", "u1", "A"⟩]) = 1 :=
  (C1_geo_diversity
      [⟨0, "USA", "u1", "A"⟩, ⟨0, "CHN", "u1", "A"⟩, ⟨0, "DEU", "u1", "A"⟩,
       ⟨0, "IND", "u1", "A"⟩, ⟨0, "JPN", "u1", "A"⟩, ⟨0, "GBR", "u1", "A"⟩,
       ⟨0, "BRA", "u1", "A"⟩, ⟨0, "AUS", "u1", "A"⟩]).2.2 (by decide)

/-- Counterexample to C1 as stated: with exactly 2 distinct countries the
returned score is `0.33`, the two-decimal rounding of `ln 2 / ln 8 = 1/3`,
not `min(1, ln 2 / ln 8)` itself. -/
theorem C1_counterexample :
    diversityScore (countryCounts [⟨0, "USA", "u1", "A"⟩, ⟨0, "DEU", "u2", "B"⟩])
      ≠ min 1 (Real.log (specPositiveKeys (countryCounts
          [⟨0, "USA", "u1", "A"⟩, ⟨0, "DEU", "u2", "B"⟩])) / Real.log 8) := by
  have hcc : countryCounts [⟨0, "USA", "u1", "A"⟩, ⟨0, "DEU", "u2", "B"⟩]
      = [("USA", 1), ("DEU", 1)] := rfl
  have hk2 : specPositiveKeys (countryCounts
      [⟨0, "USA", "u1", "A"⟩, ⟨0, "DEU", "u2", "B"⟩]) = 2 := rfl
  have hk : (specPositiveKeys (countryCounts
      [⟨0, "USA", "u1", "A"⟩, ⟨0, "DEU", "u2", "B"⟩]) : ℝ) = 2 := by
    rw [hk2]; norm_num
  rw [hk, hcc]
  have hlen : ([("USA", 1), ("DEU", 1)] : List (String × ℕ)).length = 2 := rfl
  simp only [diversityScore, hlen]
  rw [if_pos (by norm_num)]
  have hcast : ((2 : ℕ) : ℝ) = 2 := by norm_num
  rw [hcast, log2_div_log8, min_eq_right (by norm_num : (1 : ℝ) / 3 ≤ 1),
    round2_eq_div _ 33 (by norm_num) (by norm_num)]
  norm_num

/-! ### Claim C2 -/

/-- Claim C2 (amended): for every non-empty event set, the processor's
`globalScore` is the unweighted mean of the two sub-scores with the code's
two-decimal roundings applied: the coverage sub-score is `timezoneCoverage`
rounded to 2 decimals, and the mean itself is rounded to 2 decimals. -/
theorem C2_global_score (commits : List Commit) (f : Option String) (r : ℝ)
    (hne : commits ≠ []) :
    (GPprocess commits f r).map (fun res => res.globalScore)
      = some (round2 ((round2 (specTimezoneCoverage (hourlyCounts commits))
          + diversityScore (countryCounts commits)) / 2)) := by
  unfold GPprocess
  rw [if_neg (by simpa [List.isEmpty_iff] using hne)]
  rw [Option.map_some']
  have h : globalScore commits
      = round2 ((round2 (specTimezoneCoverage (hourlyCounts commits))
          + diversityScore (countryCounts commits)) / 2) := by
    unfold globalScore hriScore
    rw [hriCoverage_eq_spec]
    exact congrArg round2 (by ring)
  rw [h]

/-- Witness for C2 at a concrete single-commit input. -/
theorem C2_witness :
    (GPprocess [⟨3600, "USA", "u1", "A"⟩] none 0).map (fun res => res.globalScore)
      = some (round2 ((round2 (specTimezoneCoverage
            (hourlyCounts [⟨3600, "USA", "u1", "A"⟩]))
          + diversityScore (countryCounts [⟨3600, "USA", "u1", "A"⟩])) / 2)) :=
  C2_global_score [⟨3600, "USA", "u1", "A"⟩] none 0 (by decide)

/-- Counterexample to C2 as stated: for a single event at hour 1 the code
returns `0.02` (the rounded coverage `0.04` averaged with diversity `0` and
re-rounded), while the exact unweighted mean of the sub-scores
`(1/24 + 0) / 2 = 1/48` is not `0.02`. -/
theorem C2_counterexample :
    globalScore [⟨3600, "USA", "u1", "A"⟩]
      ≠ (specTimezoneCoverage (hourlyCounts [⟨3600, "USA", "u1", "A"⟩])
          + diversityScore (countryCounts [⟨3600, "USA", "u1", "A"⟩])) / 2 := by
  rw [globalScore_ev3600, diversityScore_ev3600]
  have hsp : specTimezoneCoverage (hourlyCounts [⟨3600, "USA", "u1", "A"⟩])
      = 1 / 24 := by
    unfold specTimezoneCoverage
    norm_num [show ((hourlyCounts [⟨3600, "USA", "u1", "A"⟩]).filter
      (fun v => 0 < v)).length = 1 from rfl]
  rw [hsp]
  norm_num

/-! ### Claim C3 -/

/-- Claim C3 (amended): each contributor's recorded country (`location`)
is the country of the FIRST processed event for that contributor in input
iteration order (the field is written only on insertion, never updated);
and when a country filter is present the ranking contains exactly the
contributors whose recorded country equals the filter value, up to the
top-10 truncation (exhaustive whenever at most 10 contributors match). -/
theorem C3_contributor_country (commits : List Commit) (f : String) :
    (∀ s ∈ contributorStats commits,
      (commits.find? (fun c => c.contributor_id = s.id)).map (fun c => c.location_iso3)
        = some s.location) ∧
    (∀ s ∈ filteredContributors commits (some f), s.location = f) ∧
    (((contributorStats commits).filter (fun s => s.location = f)).length ≤ 10 →
      ∀ s ∈ contributorStats commits, s.location = f →
        s ∈ filteredContributors commits (some f)) :=
  ⟨contributorStats_location commits,
   fun _ hs => (mem_filteredContributors hs).2,
   fun hlen _ hs hloc => filteredContributors_complete hlen hs hloc⟩

/-- Witness for C3: with filter `"DEU"` the ranking contains the
contributor whose recorded country is `"DEU"`. -/
theorem C3_witness :
    (⟨"u2", "B", 1, "DEU"⟩ : ContributorStat) ∈
      filteredContributors
        [⟨0, "USA", "u1", "A"⟩, ⟨0, "DEU", "u1", "A"⟩, ⟨0, "DEU", "u2", "B"⟩]
        (some "DEU") :=
  (C3_contributor_country
      [⟨0, "USA", "u1", "A"⟩, ⟨0, "DEU", "u1", "A"⟩, ⟨0, "DEU", "u2", "B"⟩]
      "DEU").2.2 (by decide) _ (by decide) rfl

/-- Counterexample to C3 as stated: contributor `u1` is seen first in
`"USA"` and most recently in `"DEU"`, yet the recorded country stays
`"USA"` — it is not the most recently processed event's country. -/
theorem C3_counterexample :
    (([⟨0, "USA", "u1", "A"⟩, ⟨100, "DEU", "u1", "A"⟩] : List Commit).getLast?).map
        (fun c => c.location_iso3) = some "DEU" ∧
    (contributorStats [⟨0, "USA", "u1", "A"⟩, ⟨100, "DEU", "u1", "A"⟩]).map
        (fun s => s.location) = ["USA"] ∧
    ("USA" : String) ≠ "DEU" := by
  refine ⟨rfl, rfl, by decide⟩

/-! ### Claim C4 -/

/-- Claim C4 (amended): on the empty event sequence
GlobalPulse_Analytics_Pro's processor returns NO result object (`null`),
and GlobalizationDashboard's processor returns a result whose histogram and
heatmap are EMPTY arrays (not zero-filled 24-element / 7 × 24 structures),
with all scores 0 and an empty contributor ranking. -/
theorem C4_empty_result (f : Option String) (r r1 r2 : ℝ) :
    GPprocess [] f r = none ∧
    GDprocess [] r1 r2 =
      { hriData := [], countryData := [], diversityScore := 0, pieData := [],
        heatmapData := [], globalScore := 0, openRank := 0, totalCommits := 0,
        totalContributors := 0, rawCommits := [], hriCoverage := 0,
        topCountriesStr := "", topContributors := [] } :=
  ⟨rfl, rfl⟩

/-- Counterexample to C4 as stated: the GlobalPulse processor yields no
structure at all on empty input, and the GlobalizationDashboard heatmap is
`[]`, which is not a 7 × 24 zero matrix. -/
theorem C4_counterexample :
    GPprocess [] none 0 = none ∧
    (GDprocess [] 0 0).hriData = [] ∧
    (GDprocess [] 0 0).heatmapData = [] ∧
    ([] : List (List ℕ)) ≠ List.replicate 7 (List.replicate 24 0) :=
  ⟨rfl, rfl, rfl, by decide⟩

/-! ### Claim C5 -/

/-- Claim C5 (amended): every event is counted in the country distribution
under its literal `location_iso3` value — an empty or missing code is
counted under the empty-string key, NOT under a synthetic `"unknown"`
bucket — and no event is dropped: the counts sum to the event total and
every event's country key is present with a positive count. -/
theorem C5_country_attribution (commits : List Commit) :
    ((countryCounts commits).map (fun p => p.2)).sum = commits.length ∧
    ∀ c ∈ commits, ∃ p ∈ countryCounts commits, p.1 = c.location_iso3 ∧ 0 < p.2 := by
  refine ⟨countryCounts_sum commits, ?_⟩
  intro c hc
  obtain ⟨p, hp, hpk⟩ := List.mem_map.mp (countryCounts_key_mem commits c hc)
  exact ⟨p, hp, hpk, countryCounts_pos commits p hp⟩

/-- Witness for C5: an event with an empty country code is present in the
distribution under the empty-string key. -/
theorem C5_witness :
    ∃ p ∈ countryCounts [⟨0, "", "u1", "A"⟩], p.1 = "" ∧ 0 < p.2 :=
  (C5_country_attribution [⟨0, "", "u1", "A"⟩]).2 ⟨0, "", "u1", "A"⟩ (by decide)

/-- Counterexample to C5 as stated: an event with an empty country code is
keyed by `""`; no `"unknown"` bucket exists in the distribution. -/
theorem C5_counterexample :
    (countryCounts [⟨0, "", "u1", "A"⟩]).map Prod.fst = [""] ∧
    (countryCounts [⟨0, "", "u1", "A"⟩]).find? (fun p => p.1 = "unknown") = none := by
  refine ⟨rfl, rfl⟩

/-! ### Claim C6 -/

/-- Claim C6 (amended): the Top-N collapse (`n = 5`) returns the first five
entries unchanged followed by at most one synthetic remainder entry — named
`"Others"`, not `"Other"` — holding the sum of the remaining counts,
present only when that sum is positive, and the total count is preserved. -/
theorem C6_topn_collapse (xs : List (String × ℕ)) :
    ((pieData xs).map (fun p => p.2)).sum = (xs.map (fun p => p.2)).sum ∧
    (pieData xs).take 5 = xs.take 5 ∧
    ((pieData xs).drop 5 = [] ∨
      (pieData xs).drop 5 = [("Others", ((xs.drop 5).map (fun p => p.2)).sum)]) ∧
    (((xs.drop 5).map (fun p => p.2)).sum = 0 → pieData xs = xs.take 5) := by
  have hsplit : (xs.map (fun p => p.2)).sum
      = ((xs.take 5).map (fun p => p.2)).sum + ((xs.drop 5).map (fun p => p.2)).sum := by
    conv_lhs => rw [← List.take_append_drop 5 xs]
    rw [List.map_append, List.sum_append]
  have hpie : pieData xs = xs.take 5 ++
      (if 0 < ((xs.drop 5).map (fun p => p.2)).sum
        then [("Others", ((xs.drop 5).map (fun p => p.2)).sum)] else []) := rfl
  refine ⟨?_, ?_, ?_, ?_⟩
  · rw [hpie, List.map_append, List.sum_append, hsplit]
    by_cases hS : 0 < ((xs.drop 5).map (fun p => p.2)).sum
    · rw [if_pos hS]; simp
    · rw [if_neg hS]
      have hS0 : ((xs.drop 5).map (fun p => p.2)).sum = 0 := by omega
      rw [hS0]
      simp
  · rw [hpie, List.take_append_eq_append_take]
    by_cases hlen : 5 ≤ xs.length
    · have h5 : (xs.take 5).length = 5 := by rw [List.length_take]; omega
      rw [h5]
      simp [List.take_of_length_le (le_of_eq h5)]
    · have hdrop : xs.drop 5 = [] := List.drop_eq_nil_of_le (by omega)
      rw [hdrop]
      simp [List.take_take]
  · rw [hpie, List.drop_append_eq_append_drop]
    by_cases hlen : 5 ≤ xs.length
    · have h5 : (xs.take 5).length = 5 := by rw [List.length_take]; omega
      rw [List.drop_eq_nil_of_le (le_of_eq h5), h5]
      by_cases hS : 0 < ((xs.drop 5).map (fun p => p.2)).sum
      · rw [if_pos hS]; right; rfl
      · rw [if_neg hS]; left; rfl
    · have hdrop : xs.drop 5 = [] := List.drop_eq_nil_of_le (by omega)
      rw [hdrop]
      simp only [List.map_nil, List.sum_nil]
      rw [if_neg (lt_irrefl 0)]
      left
      rw [List.drop_nil, List.append_nil]
      exact List.drop_eq_nil_of_le (by rw [List.length_take]; omega)
  · intro hS
    rw [hpie, hS, if_neg (lt_irrefl 0), List.append_nil]

/-- Witness for C6: a distribution with at most five entries is returned
unchanged, with no remainder entry. -/
theorem C6_witness : pieData [("A", 3)] = List.take 5 [("A", 3)] :=
  (C6_topn_collapse [("A", 3)]).2.2.2 (by decide)

/-- Counterexample to C6 as stated: with six entries the collapsed
remainder entry is named `"Others"`; no entry named `"Other"` exists. -/
theorem C6_counterexample :
    pieData [("A", 2), ("B", 2), ("C", 1), ("D", 1), ("E", 1), ("F", 1)]
      = [("A", 2), ("B", 2), ("C", 1), ("D", 1), ("E", 1), ("Others", 1)] ∧
    ∀ p ∈ pieData [("A", 2), ("B", 2), ("C", 1), ("D", 1), ("E", 1), ("F", 1)],
      p.1 ≠ "Other" := by
  refine ⟨rfl, by decide⟩

/-! ### Claim C7 -/

/-- Claim C7: for every event set, every country filter value and any fixed
random sample, all components of the processor result other than the
contributor ranking — histogram, heatmap, country distribution, pie data,
and all three scores, as well as the totals — are identical with and
without the filter: the filter changes only `filteredContributors`. -/
theorem C7_filter_frame (commits : List Commit) (f : String) (r : ℝ) :
    (GPprocess commits (some f) r).map (fun res => res.hriData)
      = (GPprocess commits none r).map (fun res => res.hriData) ∧
    (GPprocess commits (some f) r).map (fun res => res.heatmapData)
      = (GPprocess commits none r).map (fun res => res.heatmapData) ∧
    (GPprocess commits (some f) r).map (fun res => res.countryData)
      = (GPprocess commits none r).map (fun res => res.countryData) ∧
    (GPprocess commits (some f) r).map (fun res => res.pieData)
      = (GPprocess commits none r).map (fun res => res.pieData) ∧
    (GPprocess commits (some f) r).map (fun res => res.diversityScore)
      = (GPprocess commits none r).map (fun res => res.diversityScore) ∧
    (GPprocess commits (some f) r).map (fun res => res.hriCoverage)
      = (GPprocess commits none r).map (fun res => res.hriCoverage) ∧
    (GPprocess commits (some f) r).map (fun res => res.globalScore)
      = (GPprocess commits none r).map (fun res => res.globalScore) ∧
    (GPprocess commits (some f) r).map (fun res => res.openRank)
      = (GPprocess commits none r).map (fun res => res.openRank) ∧
    (GPprocess commits (some f) r).map (fun res => res.totalCommits)
      = (GPprocess commits none r).map (fun res => res.totalCommits) ∧
    (GPprocess commits (some f) r).map (fun res => res.totalContributors)
      = (GPprocess commits none r).map (fun res => res.totalContributors) := by
  unfold GPprocess
  split <;> simp

/-! ### Claim C8 -/

/-- Claim C8 (amended): the computation is a pure function of
(events, filter, random sample): with the sample fixed the result is fully
determined, and every component EXCEPT `openRank` is independent of the
sample drawn from `Math.random()`; `openRank` alone varies between two
invocations with identical (events, filter). -/
theorem C8_random_independence (commits : List Commit) (f : Option String)
    (r r2 : ℝ) :
    (GPprocess commits f r).map (fun res => res.hriData)
      = (GPprocess commits f r2).map (fun res => res.hriData) ∧
    (GPprocess commits f r).map (fun res => res.heatmapData)
      = (GPprocess commits f r2).map (fun res => res.heatmapData) ∧
    (GPprocess commits f r).map (fun res => res.countryData)
      = (GPprocess commits f r2).map (fun res => res.countryData) ∧
    (GPprocess commits f r).map (fun res => res.pieData)
      = (GPprocess commits f r2).map (fun res => res.pieData) ∧
    (GPprocess commits f r).map (fun res => res.diversityScore)
      = (GPprocess commits f r2).map (fun res => res.diversityScore) ∧
    (GPprocess commits f r).map (fun res => res.hriCoverage)
      = (GPprocess commits f r2).map (fun res => res.hriCoverage) ∧
    (GPprocess commits f r).map (fun res => res.globalScore)
      = (GPprocess commits f r2).map (fun res => res.globalScore) ∧
    (GPprocess commits f r).map (fun res => res.totalCommits)
      = (GPprocess commits f r2).map (fun res => res.totalCommits) ∧
    (GPprocess commits f r).map (fun res => res.totalContributors)
      = (GPprocess commits f r2).map (fun res => res.totalContributors) ∧
    (GPprocess commits f r).map (fun res => res.filteredContributors)
      = (GPprocess commits f r2).map (fun res => res.filteredContributors) := by
  unfold GPprocess
  split <;> simp

/-- Counterexample to C8 as stated: two invocations on the identical
(events, filter) input but with different `Math.random()` samples return
different `openRank` fields, so identical inputs do not always give
structurally identical results. -/
theorem C8_counterexample :
    (GPprocess [⟨3600, "USA", "u1", "A"⟩] none 0).map (fun res => res.openRank)
      ≠ (GPprocess [⟨3600, "USA", "u1", "A"⟩] none (3 / 10)).map
          (fun res => res.openRank) := by
  have hne : ¬(([⟨3600, "USA", "u1", "A"⟩] : List Commit).isEmpty = true) := by decide
  have hmap0 : (GPprocess [⟨3600, "USA", "u1", "A"⟩] none 0).map
      (fun res => res.openRank) = some (openRank [⟨3600, "USA", "u1", "A"⟩] 0) := by
    unfold GPprocess
    rw [if_neg hne]
    rfl
  have hmap3 : (GPprocess [⟨3600, "USA", "u1", "A"⟩] none (3 / 10)).map
      (fun res => res.openRank)
        = some (openRank [⟨3600, "USA", "u1", "A"⟩] (3 / 10)) := by
    unfold GPprocess
    rw [if_neg hne]
    rfl
  have h0 : openRank [⟨3600, "USA", "u1", "A"⟩] 0 = 152 / 100 := by
    unfold openRank
    rw [globalScore_ev3600]
    have harg : (1.5 : ℝ) + 0 * 0.5 + 2 / 100 = 38 / 25 := by norm_num
    rw [harg]
    exact round2_eq_div _ 152 (by norm_num) (by norm_num)
  have h3 : openRank [⟨3600, "USA", "u1", "A"⟩] (3 / 10) = 167 / 100 := by
    unfold openRank
    rw [globalScore_ev3600]
    have harg : (1.5 : ℝ) + 3 / 10 * 0.5 + 2 / 100 = 167 / 100 := by norm_num
    rw [harg]
    exact round2_eq_div _ 167 (by norm_num) (by norm_num)
  rw [hmap0, hmap3, h0, h3]
  simp only [ne_eq, Option.some.injEq]
  norm_num

/-! ### Claim C9 -/

/-- Claim C9: for every event set the heatmap has its seven weekday rows,
and for every hour `h < 24` the sum over the seven weekday rows of
`heatmap[d][h]` equals `histogram[h]`. -/
theorem C9_heatmap_column_sums (commits : List Commit) :
    (heatmapGrid commits).length = 7 ∧
    ∀ h : ℕ, h < 24 →
      ((heatmapGrid commits).map (fun row => row.getD h 0)).sum
        = (hourlyCounts commits).getD h 0 :=
  ⟨heatmapGrid_length commits, heatmap_colsum commits⟩

/-- Witness for C9 at a concrete single-commit input and hour 1. -/
theorem C9_witness :
    ((heatmapGrid [⟨3600, "USA", "u1", "A"⟩]).map (fun row => row.getD 1 0)).sum
      = (hourlyCounts [⟨3600, "USA", "u1", "A"⟩]).getD 1 0 :=
  (C9_heatmap_column_sums [⟨3600, "USA", "u1", "A"⟩]).2 1 (by decide)

/-! ### Claim C10 -/

/-- Claim C10: for every event sequence the per-contributor counts sum to
the total number of events processed (every event is attributed to exactly
one contributor), and the reported `totalContributors` equals the number of
distinct contributor ids in the input. -/
theorem C10_contributor_totals (commits : List Commit) :
    ((contributorStats commits).map (fun s => s.count)).sum = commits.length ∧
    totalContributors commits
      = (commits.map (fun c => c.contributor_id)).toFinset.card :=
  ⟨contributorStats_sum commits, (List.card_toFinset _).symm⟩

end OpenRank
